import Mathlib

/-!
# LTSV tokenizer/validator: a shallow embedding

This file embeds the LTSV (Labeled Tab-separated Values) parser of
`src/src/lib.rs` into Lean.  Rust `&str` slices are modelled as byte
lists (`List Nat`); all structural delimiters (`\t`, `\n`, `\r`, `:`)
are ASCII, so the byte-level model coincides with the char-level Rust
code on every input.  Every definition mirrors the corresponding Rust
item; names follow the source where Lean permits (`end` is a Lean
keyword, so the struct field is called `endPos`).
-/

namespace Ltsv

/-- Byte value of `'\n'` (the `NEWLINE` constant of the source). -/
def NEWLINE : Nat := 0x0a

/-- Byte value of `'\t'` (the `TAB` constant of the source). -/
def TAB : Nat := 0x09

/-- Byte value of `':'` (the `SPLITTER` constant of the source). -/
def SPLITTER : Nat := 0x3a

/-- ASCII bytes of a Lean string literal; used only to write concrete
test inputs readably. -/
def strBytes (s : String) : List Nat := s.data.map (fun c => c.toNat)

/-- `enum ErrorKind` of the source. -/
inductive ErrorKind where
  | InvalidPair
  | InvalidLabel
  | InvalidField
deriving DecidableEq, Repr

/-- `struct Error` of the source: offending text, kind, line index and
byte span `[start, endPos)` within that line. -/
structure Error where
  txt : List Nat
  kind : ErrorKind
  line : Nat
  start : Nat
  endPos : Nat
deriving DecidableEq, Repr

/-- `struct PairToken` of the source: label and field slices plus the
provenance (line index and byte span within the line). -/
structure PairToken where
  label : List Nat
  field : List Nat
  line : Nat
  start : Nat
  endPos : Nat
deriving DecidableEq, Repr

/-- `struct Pair` of the source: just the label and field slices. -/
structure Pair where
  label : List Nat
  field : List Nat
deriving DecidableEq, Repr

/-- `impl From<PairToken> for Pair`. -/
def Pair.fromToken (t : PairToken) : Pair := ⟨t.label, t.field⟩

/-- `impl Display for Pair`: renders `label:field`. -/
def Pair.render (p : Pair) : List Nat := p.label ++ SPLITTER :: p.field

/-- The byte class accepted inside a label: the match arms of
`PairToken::validate_label` (`0x30-0x39`, `0x41-0x5a`, `0x61-0x7a`,
`'_'` = 0x5f, `'.'` = 0x2e, `'-'` = 0x2d). -/
def is_label_byte (b : Nat) : Bool :=
  (0x30 ≤ b && b ≤ 0x39) || (0x41 ≤ b && b ≤ 0x5a) || (0x61 ≤ b && b ≤ 0x7a) ||
    (b == 0x5f) || (b == 0x2e) || (b == 0x2d)

/-- The byte class accepted inside a field value: the match arms of
`PairToken::validate_field` (`0x01-0x08`, `0x0b`, `0x0c`, `0x0e-0xff`). -/
def is_field_byte (b : Nat) : Bool :=
  (0x01 ≤ b && b ≤ 0x08) || (b == 0x0b) || (b == 0x0c) || (0x0e ≤ b && b ≤ 0xff)

/-- `PairToken::validate_label`: every label byte must be in the label
class, else `InvalidLabel` spanning `[start, start + label.len)`. -/
def PairToken.validate_label (t : PairToken) : Except Error Unit :=
  if t.label.all is_label_byte then Except.ok ()
  else Except.error ⟨t.label, ErrorKind.InvalidLabel, t.line, t.start,
    t.start + t.label.length⟩

/-- `PairToken::validate_field`: every field byte must be in the field
class, else `InvalidField` spanning `[start + label.len + 1, endPos)`. -/
def PairToken.validate_field (t : PairToken) : Except Error Unit :=
  if t.field.all is_field_byte then Except.ok ()
  else Except.error ⟨t.field, ErrorKind.InvalidField, t.line,
    t.start + t.label.length + 1, t.endPos⟩

/-- `PairToken::validate`: label first, then field (`?`-chaining). -/
def PairToken.validate (t : PairToken) : Except Error Unit :=
  match t.validate_label with
  | Except.error e => Except.error e
  | Except.ok _ => t.validate_field

/-- Rust `str::split_once(c)`: split at the first occurrence of `c`,
returning the parts before and after it, or `none` when absent. -/
def splitOnce (c : Nat) : List Nat → Option (List Nat × List Nat)
  | [] => none
  | b :: rest =>
    if b == c then some ([], rest)
    else match splitOnce c rest with
      | some (l, r) => some (b :: l, r)
      | none => none

/-- Worker for `splitTab`; `acc` holds the reversed bytes of the piece
being accumulated.  Rust `str::split` yields `n + 1` pieces for `n`
separators, including a final (possibly empty) piece. -/
def splitCore : List Nat → List Nat → List (List Nat)
  | [], acc => [acc.reverse]
  | b :: rest, acc =>
    if b == TAB then acc.reverse :: splitCore rest []
    else splitCore rest (b :: acc)

/-- `line.split(TAB)` of the source (`Record.fields`). -/
def splitTab (s : List Nat) : List (List Nat) := splitCore s []

/-- Finish one line for `linesCore`: `acc` is the reversed content; a
carriage return directly before the line feed is stripped (Rust
`str::lines` strips `\r\n` as one terminator). -/
def stripLineEnd (acc : List Nat) : List Nat :=
  match acc with
  | 0x0d :: rest => rest.reverse
  | _ => acc.reverse

/-- Worker for `lines`; `acc` holds the reversed bytes of the current
line.  At a `\n` the line (minus an optional preceding `\r`) is
emitted; at end of input a non-empty remainder is emitted verbatim
(no terminator, so no `\r` stripping), and a trailing `\n` produces no
empty final line — exactly Rust `str::lines`. -/
def linesCore : List Nat → List Nat → List (List Nat)
  | [], acc => if acc.isEmpty then [] else [acc.reverse]
  | b :: rest, acc =>
    if b == NEWLINE then stripLineEnd acc :: linesCore rest []
    else linesCore rest (b :: acc)

/-- `input.lines()` of the source (`Data.lines`). -/
def lines (s : List Nat) : List (List Nat) := linesCore s []

/-- One step of `impl Iterator for Record::next` on one tab-delimited
field `pair`, with the record's line index and current byte cursor
`ptr`.  Returns the produced item and the new cursor.  Mirrors the
source exactly: the cursor advance to `end + 1` happens only on the
success path — both error returns leave the cursor unchanged. -/
def recordNext (line ptr : Nat) (pair : List Nat) :
    Except Error PairToken × Nat :=
  let endP := ptr + pair.length
  match splitOnce SPLITTER pair with
  | some (label, field) =>
    let tok : PairToken := ⟨label, field, line, ptr, endP⟩
    match tok.validate with
    | Except.error e => (Except.error e, ptr)
    | Except.ok _ => (Except.ok tok, endP + 1)
  | none =>
    (Except.error ⟨pair, ErrorKind.InvalidPair, line, ptr, endP⟩, ptr)

/-- Fully driving one `Record` iterator: fold `recordNext` over the
tab-delimited fields, threading the cursor, which starts at 0. -/
def recordRun (line : Nat) : List (List Nat) → Nat → List (Except Error PairToken)
  | [], _ => []
  | f :: fs, ptr =>
    let step := recordNext line ptr f
    step.1 :: recordRun line fs step.2

/-- Driving the `Data` iterator from line index `i`: each line becomes
one record's item list; `current_line` increments per line. -/
def tokenizeFrom (i : Nat) : List (List Nat) → List (List (Except Error PairToken))
  | [] => []
  | l :: ls => recordRun i (splitTab l) 0 :: tokenizeFrom (i + 1) ls

/-- `tokenize`: split the input into lines and drive every record;
`current_line` starts at 0. -/
def tokenize (input : List Nat) : List (List (Except Error PairToken)) :=
  tokenizeFrom 0 (lines input)

/-- Inner loop of `validate`: `field?` returns the first error item. -/
def validateFields : List (Except Error PairToken) → Except Error Unit
  | [] => Except.ok ()
  | Except.error e :: _ => Except.error e
  | Except.ok _ :: rest => validateFields rest

/-- Outer loop of `validate` over the records. -/
def validateLines : List (List (Except Error PairToken)) → Except Error Unit
  | [] => Except.ok ()
  | l :: ls =>
    match validateFields l with
    | Except.error e => Except.error e
    | Except.ok _ => validateLines ls

/-- `validate`: eager well-formedness check, `Ok(())` or first error. -/
def validate (input : List Nat) : Except Error Unit :=
  validateLines (tokenize input)

/-- `line.map(pair_from).collect::<Result<Vec<_>, _>>()` of `parse`:
first error of the line, or all its pairs. -/
def collectLine : List (Except Error PairToken) → Except Error (List Pair)
  | [] => Except.ok []
  | Except.error e :: _ => Except.error e
  | Except.ok t :: rest =>
    match collectLine rest with
    | Except.error e => Except.error e
    | Except.ok ps => Except.ok (Pair.fromToken t :: ps)

/-- Outer loop of `parse`: `out.push(parsed_line?)`. -/
def parseLines : List (List (Except Error PairToken)) → Except Error (List (List Pair))
  | [] => Except.ok []
  | l :: ls =>
    match collectLine l with
    | Except.error e => Except.error e
    | Except.ok ps =>
      match parseLines ls with
      | Except.error e => Except.error e
      | Except.ok t => Except.ok (ps :: t)

/-- `parse`: eager full collection into a table of `Pair`s. -/
def parse (input : List Nat) : Except Error (List (List Pair)) :=
  parseLines (tokenize input)

/-- The error carried by one iterator item, if any. -/
def resultError : Except Error PairToken → Option Error
  | Except.error e => some e
  | Except.ok _ => none

/-- Modelled from the spec: "the first Error encountered (scanning
lines in order, fields within a line in order)" — the first error of
the tokenizer's output stream, in line-major, left-to-right order. -/
def firstErrorSpec (rss : List (List (Except Error PairToken))) : Option Error :=
  List.findSome? resultError rss.flatten

/-! ## Helper lemmas -/

theorem splitOnce_eq_none_iff (c : Nat) (s : List Nat) :
    splitOnce c s = none ↔ c ∉ s := by
  induction s with
  | nil => simp [splitOnce]
  | cons b rest ih =>
    by_cases hb : b = c
    · subst hb
      simp [splitOnce]
    · rw [List.mem_cons, not_or]
      simp only [splitOnce, beq_iff_eq, if_neg hb]
      cases h : splitOnce c rest with
      | none =>
        have hcr : c ∉ rest := ih.mp h
        simp [hcr, Ne.symm hb]
      | some p =>
        have hcr : c ∈ rest := by
          by_contra hc
          rw [ih.mpr hc] at h
          cases h
        obtain ⟨l, r⟩ := p
        simp [hcr]

theorem splitOnce_eq_some (c : Nat) (s l r : List Nat)
    (h : splitOnce c s = some (l, r)) : s = l ++ c :: r ∧ c ∉ l := by
  induction s generalizing l r with
  | nil => cases h
  | cons b rest ih =>
    rw [splitOnce] at h
    split at h
    next heq =>
      simp only [Option.some_inj, Prod.mk.injEq] at h
      obtain ⟨h1, h2⟩ := h
      subst h1; subst h2
      have hb : b = c := by simpa using heq
      subst hb
      simp
    next hne =>
      have hb : ¬b = c := by simpa using hne
      split at h
      next l2 r2 hrest =>
        simp only [Option.some_inj, Prod.mk.injEq] at h
        obtain ⟨h1, h2⟩ := h
        obtain ⟨hs, hnot⟩ := ih l2 r2 hrest
        subst h2
        subst hs
        constructor
        · rw [← h1]
          simp
        · rw [← h1, List.mem_cons, not_or]
          exact ⟨fun hc => hb hc.symm, hnot⟩
      next hrest => cases h

theorem splitOnce_at_first (c : Nat) (l r : List Nat) (h : c ∉ l) :
    splitOnce c (l ++ c :: r) = some (l, r) := by
  induction l with
  | nil => simp [splitOnce]
  | cons b bs ih =>
    rw [List.mem_cons, not_or] at h
    have hb : ¬b = c := fun hc => h.1 hc.symm
    rw [List.cons_append, splitOnce, if_neg (by simpa using hb), ih h.2]

/-! ## The claims -/

/-- C5: a byte is accepted in a label iff it lies in 0x30–0x39, 0x41–0x5A
or 0x61–0x7A or is `'_'` (0x5f), `'.'` (0x2e) or `'-'` (0x2d); a byte is
accepted in a field value iff it lies in 0x01–0x08, is 0x0B or 0x0C, or
lies in 0x0E–0xFF — in particular 0x00, 0x09, 0x0A and 0x0D are rejected
in values. -/
theorem byte_classifier_spec (b : Nat) :
    (is_label_byte b = true ↔
      ((0x30 ≤ b ∧ b ≤ 0x39) ∨ (0x41 ≤ b ∧ b ≤ 0x5a) ∨ (0x61 ≤ b ∧ b ≤ 0x7a) ∨
        b = 0x5f ∨ b = 0x2e ∨ b = 0x2d)) ∧
    (is_field_byte b = true ↔
      ((0x01 ≤ b ∧ b ≤ 0x08) ∨ b = 0x0b ∨ b = 0x0c ∨ (0x0e ≤ b ∧ b ≤ 0xff))) ∧
    is_field_byte 0x00 = false ∧ is_field_byte 0x09 = false ∧
    is_field_byte 0x0a = false ∧ is_field_byte 0x0d = false := by
  refine ⟨?_, ?_, by decide, by decide, by decide, by decide⟩ <;>
    · simp only [is_label_byte, is_field_byte, Bool.or_eq_true, Bool.and_eq_true,
        decide_eq_true_eq, beq_iff_eq]
      tauto

/-- C6: for a field whose label portion has a byte outside the label
alphabet and whose value portion also has a forbidden byte, `validate`
reports the `InvalidLabel` error (spanning the label) and never
`InvalidField` — the label is checked first and the first failure wins. -/
theorem invalid_label_wins (label field : List Nat) (line start endP : Nat)
    (hl : ∃ b ∈ label, is_label_byte b = false)
    (_hf : ∃ b ∈ field, is_field_byte b = false) :
    PairToken.validate ⟨label, field, line, start, endP⟩ =
      Except.error ⟨label, ErrorKind.InvalidLabel, line, start,
        start + label.length⟩ := by
  have h : label.all is_label_byte = false := by
    rcases hl with ⟨b, hb, hfalse⟩
    rw [Bool.eq_false_iff]
    intro hall
    rw [List.all_eq_true] at hall
    rw [hall b hb] at hfalse
    cases hfalse
  simp [PairToken.validate, PairToken.validate_label, h]

/-- C6 witness: the field `!:\r` (invalid label `!`, invalid value `\r`)
is rejected with `InvalidLabel`, span `[0, 1)`. -/
theorem invalid_label_wins_witness :
    PairToken.validate ⟨[0x21], [0x0d], 0, 0, 3⟩ =
      Except.error ⟨[0x21], ErrorKind.InvalidLabel, 0, 0, 1⟩ :=
  invalid_label_wins [0x21] [0x0d] 0 0 3 (by decide) (by decide)

/-- C7: for a field whose label is entirely in the label alphabet but
whose value has a forbidden byte, `validate` emits `InvalidField` whose
span starts at the field's start plus the label length plus 1 (for the
separator) and ends at the field's end; in particular the input
`mylabel:testing\rstuff` validates to `InvalidField`, text
`testing\rstuff`, span `[8, 21)` on line 0. -/
theorem invalid_field_span :
    (∀ (label field : List Nat) (line start endP : Nat),
      (∀ b ∈ label, is_label_byte b = true) →
      (∃ b ∈ field, is_field_byte b = false) →
      PairToken.validate ⟨label, field, line, start, endP⟩ =
        Except.error ⟨field, ErrorKind.InvalidField, line,
          start + label.length + 1, endP⟩) ∧
    validate (strBytes "mylabel:testing\rstuff") =
      Except.error ⟨strBytes "testing\rstuff", ErrorKind.InvalidField,
        0, 8, 21⟩ := by
  constructor
  · intro label field line start endP hl hf
    have hlab : label.all is_label_byte = true := List.all_eq_true.mpr hl
    have h : field.all is_field_byte = false := by
      rcases hf with ⟨b, hb, hfalse⟩
      rw [Bool.eq_false_iff]
      intro hall
      rw [List.all_eq_true] at hall
      rw [hall b hb] at hfalse
      cases hfalse
    simp [PairToken.validate, PairToken.validate_label,
      PairToken.validate_field, hlab, h]
  · rfl

/-- C7 witness: the general part applied to the token of Scenario C,
label `mylabel`, field `testing\rstuff`, span `[0 + 7 + 1, 21) = [8, 21)`. -/
theorem invalid_field_span_witness :
    PairToken.validate ⟨strBytes "mylabel", strBytes "testing\rstuff", 0, 0, 21⟩ =
      Except.error ⟨strBytes "testing\rstuff", ErrorKind.InvalidField, 0, 8, 21⟩ :=
  invalid_field_span.1 (strBytes "mylabel") (strBytes "testing\rstuff")
    0 0 21 (by decide) (by decide)

/-- C1: refuted on the code. On input `x\ta:b` the first field `x` fails
with `InvalidPair` and the cursor is NOT advanced (it stays at 0 instead
of moving to 2 = previous end + 1), so the second field `a:b` is
reported with span `[0, 3)` instead of the correct `[2, 5)`: the cursor
advance at the end of `Record::next` only runs on the success path. -/
theorem cursor_stuck_after_error :
    tokenize (strBytes "x\ta:b") =
      [[Except.error ⟨strBytes "x", ErrorKind.InvalidPair, 0, 0, 1⟩,
        Except.ok ⟨strBytes "a", strBytes "b", 0, 0, 3⟩]] ∧
    (recordNext 0 0 (strBytes "x")).2 = 0 := by
  exact ⟨rfl, rfl⟩

/-- C2: refuted on the code. The empty line of the input `"\n"` does not
yield zero items: `"".split('\t')` yields one empty piece, which has no
`:` separator, so the record yields exactly one item, an `InvalidPair`
error with empty text and span `[0, 0)` — contradicting the grammar
`record = [field *(TAB field)]` in the crate's own documentation. -/
theorem empty_line_yields_one_error :
    tokenize (strBytes "\n") =
      [[Except.error ⟨[], ErrorKind.InvalidPair, 0, 0, 0⟩]] ∧
    validate (strBytes "\n") =
      Except.error ⟨[], ErrorKind.InvalidPair, 0, 0, 0⟩ := by
  exact ⟨rfl, rfl⟩

/-- C3: refuted on the code. A field whose label portion is empty is not
rejected: `":testing"` produces a successful pair with empty label,
because `validate_label` checks `all` over the empty byte sequence,
which is vacuously true — contradicting `label = 1*lbyte` in the
crate's own grammar comment. -/
theorem empty_label_accepted :
    tokenize (strBytes ":testing") =
      [[Except.ok ⟨[], strBytes "testing", 0, 0, 8⟩]] ∧
    validate (strBytes ":testing") = Except.ok () := by
  exact ⟨rfl, rfl⟩

/-- C4: a field substring with no `:` byte fails with `InvalidPair`
spanning the whole substring `[ptr, ptr + len)`; otherwise the split
used by the record scanner cuts at the first `:` — the label is the
part before the first `:` (and itself contains no `:`), and the value
is everything after it, later `:` bytes included. -/
theorem field_split_spec (s : List Nat) (line ptr : Nat) :
    (SPLITTER ∉ s →
      recordNext line ptr s =
        (Except.error ⟨s, ErrorKind.InvalidPair, line, ptr, ptr + s.length⟩,
          ptr)) ∧
    (∀ label field, splitOnce SPLITTER s = some (label, field) →
      s = label ++ SPLITTER :: field ∧ SPLITTER ∉ label) := by
  constructor
  · intro hno
    have h := (splitOnce_eq_none_iff SPLITTER s).mpr hno
    simp [recordNext, h]
  · intro label field h
    exact splitOnce_eq_some SPLITTER s label field h

/-- C4 witness: Scenario D's second field `stuff` at cursor 16 gives
`InvalidPair` with span `[16, 21)`; and `a:b:c` splits into label `a`
and value `b:c` with the second `:` kept inside the value. -/
theorem field_split_spec_witness :
    recordNext 0 16 (strBytes "stuff") =
      (Except.error ⟨strBytes "stuff", ErrorKind.InvalidPair, 0, 16, 21⟩,
        16) ∧
    (strBytes "a:b:c" = [0x61] ++ SPLITTER :: [0x62, 0x3a, 0x63] ∧
      SPLITTER ∉ [0x61]) :=
  ⟨(field_split_spec (strBytes "stuff") 0 16).1 (by decide),
    (field_split_spec (strBytes "a:b:c") 0 0).2 [0x61] [0x62, 0x3a, 0x63]
      (by decide)⟩

theorem validateFields_eq (rs : List (Except Error PairToken)) :
    validateFields rs =
      match List.findSome? resultError rs with
      | some e => Except.error e
      | none => Except.ok () := by
  induction rs with
  | nil => rfl
  | cons r rest ih =>
    cases r with
    | error e => simp [validateFields, List.findSome?_cons, resultError]
    | ok t => simp [validateFields, List.findSome?_cons, resultError, ih]

theorem collectLine_error_iff (rs : List (Except Error PairToken)) (e : Error) :
    collectLine rs = Except.error e ↔
      List.findSome? resultError rs = some e := by
  induction rs with
  | nil => simp [collectLine]
  | cons r rest ih =>
    cases r with
    | error e2 => simp [collectLine, List.findSome?_cons, resultError]
    | ok t =>
      simp only [List.findSome?_cons, resultError]
      rw [← ih]
      cases hr : collectLine rest with
      | error e2 => simp [collectLine, hr]
      | ok ps => simp [collectLine, hr]

theorem collectLine_ok_iff (rs : List (Except Error PairToken)) :
    (∃ ps, collectLine rs = Except.ok ps) ↔
      List.findSome? resultError rs = none := by
  induction rs with
  | nil => simp [collectLine]
  | cons r rest ih =>
    cases r with
    | error e2 => simp [collectLine, List.findSome?_cons, resultError]
    | ok t =>
      simp only [List.findSome?_cons, resultError]
      rw [← ih]
      cases hr : collectLine rest with
      | error e2 => simp [collectLine, hr]
      | ok ps => simp [collectLine, hr]

theorem firstErrorSpec_cons (l : List (Except Error PairToken))
    (ls : List (List (Except Error PairToken))) :
    firstErrorSpec (l :: ls) =
      (List.findSome? resultError l).or (firstErrorSpec ls) := by
  simp [firstErrorSpec, List.findSome?_append]

theorem validateLines_eq (rss : List (List (Except Error PairToken))) :
    validateLines rss =
      match firstErrorSpec rss with
      | some e => Except.error e
      | none => Except.ok () := by
  induction rss with
  | nil => rfl
  | cons l ls ih =>
    rw [validateLines, validateFields_eq, firstErrorSpec_cons]
    cases h : List.findSome? resultError l with
    | some e => simp
    | none => simp [ih]

theorem validate_ok_iff (input : List Nat) :
    validate input = Except.ok () ↔ firstErrorSpec (tokenize input) = none := by
  rw [validate, validateLines_eq]
  cases h : firstErrorSpec (tokenize input) <;> simp

theorem validate_error_iff (input : List Nat) (e : Error) :
    validate input = Except.error e ↔
      firstErrorSpec (tokenize input) = some e := by
  rw [validate, validateLines_eq]
  cases h : firstErrorSpec (tokenize input) <;> simp

theorem parseLines_error_iff (rss : List (List (Except Error PairToken)))
    (e : Error) :
    parseLines rss = Except.error e ↔ firstErrorSpec rss = some e := by
  induction rss with
  | nil => simp [parseLines, firstErrorSpec]
  | cons l ls ih =>
    rw [firstErrorSpec_cons]
    cases hc : List.findSome? resultError l with
    | some e2 =>
      have hl : collectLine l = Except.error e2 :=
        (collectLine_error_iff l e2).mpr hc
      simp [parseLines, hl]
    | none =>
      obtain ⟨ps, hps⟩ := (collectLine_ok_iff l).mpr hc
      simp only [parseLines, hps, Option.none_or]
      rw [← ih]
      cases hp : parseLines ls with
      | error e2 => simp [hp]
      | ok t => simp [hp]

theorem parseLines_ok_iff (rss : List (List (Except Error PairToken))) :
    (∃ t, parseLines rss = Except.ok t) ↔ firstErrorSpec rss = none := by
  induction rss with
  | nil => simp [parseLines, firstErrorSpec]
  | cons l ls ih =>
    rw [firstErrorSpec_cons]
    cases hc : List.findSome? resultError l with
    | some e2 =>
      have hl : collectLine l = Except.error e2 :=
        (collectLine_error_iff l e2).mpr hc
      simp [parseLines, hl]
    | none =>
      obtain ⟨ps, hps⟩ := (collectLine_ok_iff l).mpr hc
      simp only [parseLines, hps, Option.none_or]
      rw [← ih]
      cases hp : parseLines ls with
      | error e2 => simp [hp]
      | ok t => simp [hp]

/-- C8: the eager collectors scan lines in input order and fields
left-to-right (the flattened tokenizer stream) and short-circuit:
`validate` returns `Ok(())` iff no field item of the whole buffer is an
error, and both `validate` and `parse` fail with exactly the first
error of that scan order; `parse` succeeds (returning some table, never
a partial one) iff there is no error at all. -/
theorem eager_collector_spec (input : List Nat) :
    (validate input = Except.ok () ↔
      ∀ r ∈ (tokenize input).flatten, resultError r = none) ∧
    (∀ e, validate input = Except.error e ↔
      firstErrorSpec (tokenize input) = some e) ∧
    (∀ e, parse input = Except.error e ↔
      firstErrorSpec (tokenize input) = some e) ∧
    ((∃ t, parse input = Except.ok t) ↔
      ∀ r ∈ (tokenize input).flatten, resultError r = none) := by
  refine ⟨?_, fun e => validate_error_iff input e,
    fun e => parseLines_error_iff (tokenize input) e, ?_⟩
  · rw [validate_ok_iff, firstErrorSpec, List.findSome?_eq_none_iff]
  · rw [show parse input = parseLines (tokenize input) from rfl,
      parseLines_ok_iff, firstErrorSpec, List.findSome?_eq_none_iff]

theorem label_byte_not_structural (b : Nat) (h : is_label_byte b = true) :
    b ≠ NEWLINE ∧ b ≠ TAB ∧ b ≠ SPLITTER := by
  simp only [is_label_byte, Bool.or_eq_true, Bool.and_eq_true,
    decide_eq_true_eq, beq_iff_eq] at h
  simp only [NEWLINE, TAB, SPLITTER]
  omega

theorem is_field_byte_of_unreserved (b : Nat)
    (h : b ≤ 0xff ∧ b ≠ 0x00 ∧ b ≠ 0x09 ∧ b ≠ 0x0a ∧ b ≠ 0x0d) :
    is_field_byte b = true := by
  simp only [is_field_byte, Bool.or_eq_true, Bool.and_eq_true,
    decide_eq_true_eq, beq_iff_eq]
  omega

theorem linesCore_no_nl (s : List Nat) (h : ∀ b ∈ s, b ≠ NEWLINE) :
    ∀ acc, acc ≠ [] ∨ s ≠ [] → linesCore s acc = [acc.reverse ++ s] := by
  induction s with
  | nil =>
    intro acc hne
    rcases hne with hne | hne
    · cases acc with
      | nil => exact absurd rfl hne
      | cons a as => simp [linesCore]
    · exact absurd rfl hne
  | cons b rest ih =>
    intro acc _
    have hb : ¬b = NEWLINE := h b (List.mem_cons_self b rest)
    rw [linesCore, if_neg (by simpa using hb),
      ih (fun x hx => h x (List.mem_cons_of_mem b hx)) (b :: acc)
        (Or.inl (by simp))]
    simp

theorem lines_single (s : List Nat) (h : ∀ b ∈ s, b ≠ NEWLINE)
    (hne : s ≠ []) : lines s = [s] := by
  rw [lines, linesCore_no_nl s h [] (Or.inr hne)]
  simp

theorem splitCore_no_tab (s : List Nat) (h : ∀ b ∈ s, b ≠ TAB) :
    ∀ acc, splitCore s acc = [acc.reverse ++ s] := by
  induction s with
  | nil => intro acc; simp [splitCore]
  | cons b rest ih =>
    intro acc
    have hb : ¬b = TAB := h b (List.mem_cons_self b rest)
    rw [splitCore, if_neg (by simpa using hb),
      ih (fun x hx => h x (List.mem_cons_of_mem b hx)) (b :: acc)]
    simp

theorem splitTab_single (s : List Nat) (h : ∀ b ∈ s, b ≠ TAB) :
    splitTab s = [s] := by
  rw [splitTab, splitCore_no_tab s h []]
  simp

/-- C9: rendering a pair whose label is entirely in the label alphabet
and whose field has no NUL, tab, or newline-control bytes (`\n`, `\r`)
as `label:field` and re-parsing that text as a single-field line yields
exactly one record holding exactly one successful pair, equal to the
original: the token carries the original label and field, and `parse`
returns exactly `[[pair]]`. -/
theorem round_trip (label field : List Nat)
    (hl : ∀ b ∈ label, is_label_byte b = true)
    (hf : ∀ b ∈ field, b ≤ 0xff ∧ b ≠ 0x00 ∧ b ≠ 0x09 ∧ b ≠ 0x0a ∧ b ≠ 0x0d) :
    tokenize (Pair.render ⟨label, field⟩) =
      [[Except.ok ⟨label, field, 0, 0, label.length + 1 + field.length⟩]] ∧
    parse (Pair.render ⟨label, field⟩) =
      Except.ok [[⟨label, field⟩]] := by
  have hrender : Pair.render ⟨label, field⟩ = label ++ SPLITTER :: field := rfl
  have hno_nl : ∀ b ∈ label ++ SPLITTER :: field, b ≠ NEWLINE := by
    intro b hb
    rcases List.mem_append.mp hb with hm | hm
    · exact (label_byte_not_structural b (hl b hm)).1
    · rcases List.mem_cons.mp hm with rfl | hm
      · simp [SPLITTER, NEWLINE]
      · simpa [NEWLINE] using (hf b hm).2.2.2.1
  have hno_tab : ∀ b ∈ label ++ SPLITTER :: field, b ≠ TAB := by
    intro b hb
    rcases List.mem_append.mp hb with hm | hm
    · exact (label_byte_not_structural b (hl b hm)).2.1
    · rcases List.mem_cons.mp hm with rfl | hm
      · simp [SPLITTER, TAB]
      · simpa [TAB] using (hf b hm).2.2.1
  have hlines : lines (label ++ SPLITTER :: field) = [label ++ SPLITTER :: field] :=
    lines_single _ hno_nl (by simp)
  have hsplitTab : splitTab (label ++ SPLITTER :: field) = [label ++ SPLITTER :: field] :=
    splitTab_single _ hno_tab
  have hcolon : SPLITTER ∉ label :=
    fun hmem => (label_byte_not_structural SPLITTER (hl SPLITTER hmem)).2.2 rfl
  have hsplitOnce : splitOnce SPLITTER (label ++ SPLITTER :: field) =
      some (label, field) := splitOnce_at_first SPLITTER label field hcolon
  have hlab_all : label.all is_label_byte = true := List.all_eq_true.mpr hl
  have hfield_all : field.all is_field_byte = true :=
    List.all_eq_true.mpr (fun b hb => is_field_byte_of_unreserved b (hf b hb))
  have hlen : (label ++ SPLITTER :: field).length =
      label.length + 1 + field.length := by
    simp only [List.length_append, List.length_cons]
    omega
  have hrec : recordNext 0 0 (label ++ SPLITTER :: field) =
      (Except.ok ⟨label, field, 0, 0, label.length + 1 + field.length⟩,
        label.length + 1 + field.length + 1) := by
    simp only [recordNext, hsplitOnce, PairToken.validate,
      PairToken.validate_label, PairToken.validate_field, hlab_all,
      hfield_all, if_pos, hlen, Nat.zero_add]
  have htok : tokenize (label ++ SPLITTER :: field) =
      [[Except.ok ⟨label, field, 0, 0, label.length + 1 + field.length⟩]] := by
    rw [tokenize, hlines, tokenizeFrom, hsplitTab, tokenizeFrom, recordRun]
    simp only [hrec, recordRun]
  refine ⟨by rw [hrender, htok], ?_⟩
  rw [show parse (Pair.render ⟨label, field⟩) =
    parseLines (tokenize (Pair.render ⟨label, field⟩)) from rfl,
    hrender, htok]
  simp [parseLines, collectLine, Pair.fromToken]

/-- C9 witness: the pair with label `my-label` and field `testing`
renders to `my-label:testing` and re-parses to exactly itself, with
the token spanning `[0, 16)` on line 0. -/
theorem round_trip_witness :
    tokenize (Pair.render ⟨strBytes "my-label", strBytes "testing"⟩) =
      [[Except.ok ⟨strBytes "my-label", strBytes "testing", 0, 0, 16⟩]] ∧
    parse (Pair.render ⟨strBytes "my-label", strBytes "testing"⟩) =
      Except.ok [[⟨strBytes "my-label", strBytes "testing"⟩]] :=
  round_trip (strBytes "my-label") (strBytes "testing")
    (by decide) (by decide)

/-- C10: `validate` and `parse` agree on every input: `validate` returns
`Ok(())` exactly when `parse` returns a table, and when both fail they
return the very same `Error` value (kind, text, line, start and end). -/
theorem validate_parse_agree (input : List Nat) :
    (validate input = Except.ok () ↔ ∃ t, parse input = Except.ok t) ∧
    (∀ e, validate input = Except.error e ↔ parse input = Except.error e) := by
  constructor
  · rw [validate_ok_iff,
      show parse input = parseLines (tokenize input) from rfl,
      parseLines_ok_iff]
  · intro e
    rw [validate_error_iff,
      show parse input = parseLines (tokenize input) from rfl,
      parseLines_error_iff]

end Ltsv
